import Mathlib

/-!
Shallow embedding of the markdown-to-rich-text converter of
`gdrive_server.py`: the block scanner `parse_markdown_to_doc_requests`,
the inline formatter `process_inline_markdown`, and the regular-expression
matching they rely on, modelled over `List Char`. Strings are lists of
characters; the Google-Docs request dictionaries become the inductive
`FormatRequest`.
-/

/-- Python's `\s` character class for `str` patterns (Unicode mode):
ASCII whitespace plus the Unicode whitespace code points. -/
def pyIsSpace (c : Char) : Bool :=
  c == ' ' || c == '\t' || c == '\n' || c == '\r' || c == '\x0b' || c == '\x0c' ||
  c == '\x1c' || c == '\x1d' || c == '\x1e' || c == '\x1f' || c == '\x85' || c == '\xa0' ||
  c == ' ' || c == ' ' || c == ' ' || c == ' ' || c == ' ' ||
  c == ' ' || c == ' ' || c == ' ' || c == ' ' || c == ' ' ||
  c == ' ' || c == ' ' || c == ' ' || c == ' ' || c == ' ' ||
  c == ' ' || c == '　'

/-- Python's `\d` character class for `str` patterns (Unicode mode): the
Unicode decimal-digit (category Nd) code points, written as their
contiguous code-point ranges. -/
def pyIsDigit (c : Char) : Bool :=
  (0x30 ≤ c.toNat && c.toNat ≤ 0x39) ||
  (0x660 ≤ c.toNat && c.toNat ≤ 0x669) ||
  (0x6F0 ≤ c.toNat && c.toNat ≤ 0x6F9) ||
  (0x7C0 ≤ c.toNat && c.toNat ≤ 0x7C9) ||
  (0x966 ≤ c.toNat && c.toNat ≤ 0x96F) ||
  (0x9E6 ≤ c.toNat && c.toNat ≤ 0x9EF) ||
  (0xA66 ≤ c.toNat && c.toNat ≤ 0xA6F) ||
  (0xAE6 ≤ c.toNat && c.toNat ≤ 0xAEF) ||
  (0xB66 ≤ c.toNat && c.toNat ≤ 0xB6F) ||
  (0xBE6 ≤ c.toNat && c.toNat ≤ 0xBEF) ||
  (0xC66 ≤ c.toNat && c.toNat ≤ 0xC6F) ||
  (0xCE6 ≤ c.toNat && c.toNat ≤ 0xCEF) ||
  (0xD66 ≤ c.toNat && c.toNat ≤ 0xD6F) ||
  (0xDE6 ≤ c.toNat && c.toNat ≤ 0xDEF) ||
  (0xE50 ≤ c.toNat && c.toNat ≤ 0xE59) ||
  (0xED0 ≤ c.toNat && c.toNat ≤ 0xED9) ||
  (0xF20 ≤ c.toNat && c.toNat ≤ 0xF29) ||
  (0x1040 ≤ c.toNat && c.toNat ≤ 0x1049) ||
  (0x1090 ≤ c.toNat && c.toNat ≤ 0x1099) ||
  (0x17E0 ≤ c.toNat && c.toNat ≤ 0x17E9) ||
  (0x1810 ≤ c.toNat && c.toNat ≤ 0x1819) ||
  (0x1946 ≤ c.toNat && c.toNat ≤ 0x194F) ||
  (0x19D0 ≤ c.toNat && c.toNat ≤ 0x19D9) ||
  (0x1A80 ≤ c.toNat && c.toNat ≤ 0x1A89) ||
  (0x1A90 ≤ c.toNat && c.toNat ≤ 0x1A99) ||
  (0x1B50 ≤ c.toNat && c.toNat ≤ 0x1B59) ||
  (0x1BB0 ≤ c.toNat && c.toNat ≤ 0x1BB9) ||
  (0x1C40 ≤ c.toNat && c.toNat ≤ 0x1C49) ||
  (0x1C50 ≤ c.toNat && c.toNat ≤ 0x1C59) ||
  (0xA620 ≤ c.toNat && c.toNat ≤ 0xA629) ||
  (0xA8D0 ≤ c.toNat && c.toNat ≤ 0xA8D9) ||
  (0xA900 ≤ c.toNat && c.toNat ≤ 0xA909) ||
  (0xA9D0 ≤ c.toNat && c.toNat ≤ 0xA9D9) ||
  (0xA9F0 ≤ c.toNat && c.toNat ≤ 0xA9F9) ||
  (0xAA50 ≤ c.toNat && c.toNat ≤ 0xAA59) ||
  (0xABF0 ≤ c.toNat && c.toNat ≤ 0xABF9) ||
  (0xFF10 ≤ c.toNat && c.toNat ≤ 0xFF19) ||
  (0x104A0 ≤ c.toNat && c.toNat ≤ 0x104A9) ||
  (0x10D30 ≤ c.toNat && c.toNat ≤ 0x10D39) ||
  (0x11066 ≤ c.toNat && c.toNat ≤ 0x1106F) ||
  (0x110F0 ≤ c.toNat && c.toNat ≤ 0x110F9) ||
  (0x11136 ≤ c.toNat && c.toNat ≤ 0x1113F) ||
  (0x111D0 ≤ c.toNat && c.toNat ≤ 0x111D9) ||
  (0x112F0 ≤ c.toNat && c.toNat ≤ 0x112F9) ||
  (0x11450 ≤ c.toNat && c.toNat ≤ 0x11459) ||
  (0x114D0 ≤ c.toNat && c.toNat ≤ 0x114D9) ||
  (0x11650 ≤ c.toNat && c.toNat ≤ 0x11659) ||
  (0x116C0 ≤ c.toNat && c.toNat ≤ 0x116C9) ||
  (0x11730 ≤ c.toNat && c.toNat ≤ 0x11739) ||
  (0x118E0 ≤ c.toNat && c.toNat ≤ 0x118E9) ||
  (0x11950 ≤ c.toNat && c.toNat ≤ 0x11959) ||
  (0x11C50 ≤ c.toNat && c.toNat ≤ 0x11C59) ||
  (0x11D50 ≤ c.toNat && c.toNat ≤ 0x11D59) ||
  (0x11DA0 ≤ c.toNat && c.toNat ≤ 0x11DA9) ||
  (0x16A60 ≤ c.toNat && c.toNat ≤ 0x16A69) ||
  (0x16AC0 ≤ c.toNat && c.toNat ≤ 0x16AC9) ||
  (0x16B50 ≤ c.toNat && c.toNat ≤ 0x16B59) ||
  (0x1D7CE ≤ c.toNat && c.toNat ≤ 0x1D7FF) ||
  (0x1E140 ≤ c.toNat && c.toNat ≤ 0x1E149) ||
  (0x1E2F0 ≤ c.toNat && c.toNat ≤ 0x1E2F9) ||
  (0x1E950 ≤ c.toNat && c.toNat ≤ 0x1E959) ||
  (0x1FBF0 ≤ c.toNat && c.toNat ≤ 0x1FBF9)

/-- A half-open range `[startIndex, endIndex)` in the 1-based addressing of the
final plain-text buffer, as in the `range` sub-dictionaries of the requests. -/
structure DocRange where
  startIndex : Nat
  endIndex : Nat
deriving DecidableEq

/-- The two `bulletPreset` string constants used by `createParagraphBullets`. -/
inductive BulletPreset
  | BULLET_DISC_CIRCLE_SQUARE
  | NUMBERED_DECIMAL_ALPHA_ROMAN
deriving DecidableEq

/-- Whether a preset denotes a numbered (ordered) list. -/
def BulletPreset.ordered : BulletPreset → Bool
  | .BULLET_DISC_CIRCLE_SQUARE => false
  | .NUMBERED_DECIMAL_ALPHA_ROMAN => true

/-- The `textStyle` payload of an `updateTextStyle` request: the code emits
exactly one of `{'bold': True}`, `{'italic': True}`, or a link (the link also
carries the fixed foreground color rgb(0.06, 0.46, 0.88), a constant of the
code that we do not model numerically). -/
inductive TextStyleAttr
  | bold
  | italic
  | link (url : List Char)
deriving DecidableEq

/-- One formatting request dictionary, as appended to `format_requests`.
`updateParagraphStyle` stores the heading level of the
`HEADING_<level>` named style. -/
inductive FormatRequest
  | updateParagraphStyle (range : DocRange) (headingLevel : Nat)
  | createParagraphBullets (range : DocRange) (bulletPreset : BulletPreset)
  | updateTextStyle (range : DocRange) (textStyle : TextStyleAttr)
deriving DecidableEq

/-- The `startIndex` of a request's range. -/
def FormatRequest.startIdx : FormatRequest → Nat
  | .updateParagraphStyle r _ => r.startIndex
  | .createParagraphBullets r _ => r.startIndex
  | .updateTextStyle r _ => r.startIndex

/-- The `endIndex` of a request's range. -/
def FormatRequest.endIdx : FormatRequest → Nat
  | .updateParagraphStyle r _ => r.endIndex
  | .createParagraphBullets r _ => r.endIndex
  | .updateTextStyle r _ => r.endIndex

/-- Embeds Python's `markdown.split('\n')`: splitting on every newline,
keeping empty pieces, so the result is always non-empty and an input ending
in a newline produces a final empty element. -/
def splitNL : List Char → List (List Char)
  | [] => [[]]
  | c :: rest =>
    if c == '\n' then [] :: splitNL rest
    else
      match splitNL rest with
      | l :: ls => (c :: l) :: ls
      | [] => [[c]]

/-- Embeds `re.match(r'^(#{1,6})\s+(.+)$', line)`, returning
`(level, group 2)` on success. Faithful for lines that contain no newline
(the scanner only passes elements of a `split('\n')`). The leading `#` run
is maximal (backtracking to fewer `#` makes `\s+` face a `#`), then `\s+`
takes the maximal whitespace run; if that exhausts the line, backtracking
hands the last whitespace character to `.+`, so an all-whitespace tail of
length at least two still matches. -/
def headingMatch (line : List Char) : Option (Nat × List Char) :=
  let h := (line.takeWhile (fun c => c == '#')).length
  let rest := line.drop h
  let w := (rest.takeWhile pyIsSpace).length
  if 1 ≤ h ∧ h ≤ 6 then
    if 1 ≤ w ∧ w + 1 ≤ rest.length then some (h, rest.drop w)
    else if 2 ≤ w ∧ w = rest.length then some (h, rest.drop (w - 1))
    else none
  else none

/-- Embeds the truth of `re.match(r'^[\-\*]\s+', line)`: a bullet marker
followed by at least one whitespace character; no content is required. -/
def bulletItemMatch : List Char → Bool
  | c :: d :: _ => (c == '-' || c == '*') && pyIsSpace d
  | _ => false

/-- Embeds the truth of `re.match(r'^\d+\.\s+', line)`: a non-empty run of
Unicode decimal digits, a dot, then at least one whitespace character; no
content required. -/
def numberedItemMatch (line : List Char) : Bool :=
  let ds := line.takeWhile pyIsDigit
  match line.drop ds.length with
  | '.' :: d :: _ => !ds.isEmpty && pyIsSpace d
  | _ => false

/-- Embeds `re.sub(r'^[\-\*]\s+', '', line)` on a line matching
`bulletItemMatch`: drop the marker and the maximal whitespace run. -/
def stripBullet (line : List Char) : List Char :=
  (line.drop 1).dropWhile pyIsSpace

/-- Embeds `re.sub(r'^\d+\.\s+', '', line)` on a line matching
`numberedItemMatch`: drop the digits, the dot and the maximal whitespace. -/
def stripNumbered (line : List Char) : List Char :=
  ((line.dropWhile pyIsDigit).drop 1).dropWhile pyIsSpace

/-- Embeds the inner `while` loops of the two list branches: collect the
stripped texts of the maximal run of consecutive lines matching `p`, and
return them with the remaining lines. -/
def collectRun (p : List Char → Bool) (strip : List Char → List Char) :
    List (List Char) → List (List Char) × List (List Char)
  | [] => ([], [])
  | l :: ls =>
    if p l then
      let r := collectRun p strip ls
      (strip l :: r.1, r.2)
    else ([], l :: ls)

/-- Embeds `'\n'.join(items)`. -/
def joinNL : List (List Char) → List Char
  | [] => []
  | [l] => l
  | l :: l2 :: ls => l ++ '\n' :: joinNL (l2 :: ls)

/-- The two capture groups and total length of a successful `re.match` of one
inline pattern against the scan suffix. `group2` is empty except for links. -/
structure ReMatch where
  group0len : Nat
  group1 : List Char
  group2 : List Char
deriving DecidableEq

/-- The `format_type` tags of the inline pattern table. -/
inductive FormatType
  | bold
  | italic
  | link
deriving DecidableEq

/-- The lazy group `(.+?)` followed by the literal `closer`: consume at least
one character, `.` never matching a newline, stopping at the earliest point
where `closer` follows; returns the captured group and the text after the
closer. -/
def lazyCapture (closer : List Char) : List Char → Option (List Char × List Char)
  | [] => none
  | c :: rest =>
    if c == '\n' then none
    else if closer.isPrefixOf rest then some ([c], rest.drop closer.length)
    else
      match lazyCapture closer rest with
      | some (inner, after) => some (c :: inner, after)
      | none => none

/-- Embeds `re.match(r'\*\*(.+?)\*\*', s)`. -/
def boldStar : List Char → Option ReMatch
  | '*' :: '*' :: rest =>
    match lazyCapture ['*', '*'] rest with
    | some (inner, _) => some ⟨inner.length + 4, inner, []⟩
    | none => none
  | _ => none

/-- Embeds `re.match(r'__(.+?)__', s)`. -/
def boldUnder : List Char → Option ReMatch
  | '_' :: '_' :: rest =>
    match lazyCapture ['_', '_'] rest with
    | some (inner, _) => some ⟨inner.length + 4, inner, []⟩
    | none => none
  | _ => none

/-- Embeds `re.match(r'\*(.+?)\*', s)`. -/
def italicStar : List Char → Option ReMatch
  | '*' :: rest =>
    match lazyCapture ['*'] rest with
    | some (inner, _) => some ⟨inner.length + 2, inner, []⟩
    | none => none
  | _ => none

/-- Embeds `re.match(r'_(.+?)_', s)`. -/
def italicUnder : List Char → Option ReMatch
  | '_' :: rest =>
    match lazyCapture ['_'] rest with
    | some (inner, _) => some ⟨inner.length + 2, inner, []⟩
    | none => none
  | _ => none

/-- Embeds `re.match(r'\[([^\]]+)\]\(([^)]+)\)', s)`: the greedy negated
classes take the maximal run of characters other than the closing bracket,
which must be non-empty and followed by the literal closer. -/
def linkRe : List Char → Option ReMatch
  | '[' :: rest =>
    let txt := rest.takeWhile (fun c => c != ']')
    if txt.isEmpty then none
    else
      match rest.drop txt.length with
      | ']' :: '(' :: r2 =>
        let url := r2.takeWhile (fun c => c != ')')
        if url.isEmpty then none
        else
          match r2.drop url.length with
          | ')' :: _ => some ⟨txt.length + url.length + 4, txt, url⟩
          | _ => none
      | _ => none
  | _ => none

/-- The ordered pattern table of `process_inline_markdown`. -/
def patterns : List ((List Char → Option ReMatch) × FormatType) :=
  [(boldStar, .bold), (boldUnder, .bold),
   (italicStar, .italic), (italicUnder, .italic),
   (linkRe, .link)]

/-- Embeds the `for pattern, format_type in patterns` loop with `break`:
the first pattern of the table that matches at the current position wins. -/
def firstMatch : List ((List Char → Option ReMatch) × FormatType) → List Char →
    Option (ReMatch × FormatType)
  | [], _ => none
  | (p, ft) :: ps, s =>
    match p s with
    | some m => some (m, ft)
    | none => firstMatch ps s

/-- The `updateTextStyle` request built for one inline match: range
`[start, start + len(group 1))`; links carry the url (group 2). -/
def mkInlineReq (start : Nat) (m : ReMatch) (ft : FormatType) : FormatRequest :=
  match ft with
  | .bold => .updateTextStyle ⟨start, start + m.group1.length⟩ .bold
  | .italic => .updateTextStyle ⟨start, start + m.group1.length⟩ .italic
  | .link => .updateTextStyle ⟨start, start + m.group1.length⟩ (.link m.group2)

/-- The character-by-character scan loop of `process_inline_markdown`,
with explicit fuel (each iteration consumes at least one character, so fuel
equal to the text length is enough). State: remaining text, `result`,
`format_requests`. On a match the inner text is appended, one request is
emitted over its range, and the scan resumes after the whole match; on no
match the single character is copied verbatim. -/
def processInlineGo (offset : Nat) :
    Nat → List Char → List Char → List FormatRequest → List Char × List FormatRequest
  | 0, _, result, reqs => (result, reqs)
  | _ + 1, [], result, reqs => (result, reqs)
  | fuel + 1, c :: rest, result, reqs =>
    match firstMatch patterns (c :: rest) with
    | some (m, ft) =>
      processInlineGo offset fuel ((c :: rest).drop m.group0len) (result ++ m.group1)
        (reqs ++ [mkInlineReq (offset + result.length) m ft])
    | none => processInlineGo offset fuel rest (result ++ [c]) reqs

/-- Embeds `process_inline_markdown(text, base_index)`: returns the plain
text with inline markers stripped and the `updateTextStyle` requests. -/
def process_inline_markdown (text : List Char) (base_index : Nat) :
    List Char × List FormatRequest :=
  processInlineGo base_index text.length text [] []

/-- The main `while i < len(lines)` loop of `parse_markdown_to_doc_requests`,
with explicit fuel (every iteration consumes at least one line). State:
remaining lines, `plain_text`, `current_index`, `format_requests`; the final
`current_index` is returned as well so the cursor can be reasoned about. -/
def parseLoop :
    Nat → List (List Char) → List Char → Nat → List FormatRequest →
    List Char × Nat × List FormatRequest
  | 0, _, plain, idx, reqs => (plain, idx, reqs)
  | _ + 1, [], plain, idx, reqs => (plain, idx, reqs)
  | fuel + 1, line :: rest, plain, idx, reqs =>
    match headingMatch line with
    | some (level, content) =>
      parseLoop fuel rest (plain ++ (content ++ ['\n']))
        (idx + (content ++ ['\n']).length)
        (reqs ++ [.updateParagraphStyle ⟨idx, idx + (content ++ ['\n']).length⟩ level])
    | none =>
      if bulletItemMatch line then
        let r := collectRun bulletItemMatch stripBullet (line :: rest)
        parseLoop fuel r.2 (plain ++ (joinNL r.1 ++ ['\n']))
          (idx + (joinNL r.1 ++ ['\n']).length)
          (reqs ++ [.createParagraphBullets ⟨idx, idx + (joinNL r.1 ++ ['\n']).length⟩
            .BULLET_DISC_CIRCLE_SQUARE])
      else if numberedItemMatch line then
        let r := collectRun numberedItemMatch stripNumbered (line :: rest)
        parseLoop fuel r.2 (plain ++ (joinNL r.1 ++ ['\n']))
          (idx + (joinNL r.1 ++ ['\n']).length)
          (reqs ++ [.createParagraphBullets ⟨idx, idx + (joinNL r.1 ++ ['\n']).length⟩
            .NUMBERED_DECIMAL_ALPHA_ROMAN])
      else
        let pr := process_inline_markdown line idx
        if !pr.1.isEmpty || line.isEmpty then
          parseLoop fuel rest (plain ++ pr.1 ++ ['\n']) (idx + pr.1.length + 1)
            (reqs ++ pr.2)
        else
          parseLoop fuel rest plain idx reqs

/-- `parse_markdown_to_doc_requests`, also exposing the final value of
`current_index` (the cursor), which the Python function keeps internal. -/
def parseFull (markdown : List Char) : List Char × Nat × List FormatRequest :=
  parseLoop (splitNL markdown).length (splitNL markdown) [] 1 []

/-- Embeds `parse_markdown_to_doc_requests(markdown)`: the plain text and
the ordered list of formatting requests. -/
def parse_markdown_to_doc_requests (markdown : List Char) :
    List Char × List FormatRequest :=
  ((parseFull markdown).1, (parseFull markdown).2.2)

/-- The inline priority order as the specification words it (the refinement
target compared with the source's pattern-table fold `firstMatch patterns`):
attempt bold (`**x**` then `__x__`), italic (`*x*` then `_x_`), link
(`[text](url)`) in that fixed order, taking the first that matches. -/
def specInlineStep (s : List Char) : Option (ReMatch × FormatType) :=
  match boldStar s with
  | some m => some (m, .bold)
  | none =>
    match boldUnder s with
    | some m => some (m, .bold)
    | none =>
      match italicStar s with
      | some m => some (m, .italic)
      | none =>
        match italicUnder s with
        | some m => some (m, .italic)
        | none =>
          match linkRe s with
          | some m => some (m, .link)
          | none => none

/-- The bullet-item test as the claim words it, `^[-*]\s+.+` (content after
the whitespace required). Faithful for newline-free lines: with backtracking
the pattern matches exactly when a marker is followed by a whitespace
character and at least one further character, so a line of a marker plus a
single whitespace character does not match. -/
def claimedBulletItem : List Char → Bool
  | c :: d :: _ :: _ => (c == '-' || c == '*') && pyIsSpace d
  | _ => false

/-! ### Properties of the inline pattern matchers -/

theorem lazyCapture_ne_nil {closer l : List Char} {inner after : List Char}
    (h : lazyCapture closer l = some (inner, after)) : inner ≠ [] := by
  cases l with
  | nil => simp [lazyCapture] at h
  | cons c rest =>
    simp only [lazyCapture] at h
    split at h
    · simp at h
    · split at h
      · simp only [Option.some.injEq, Prod.mk.injEq] at h
        rcases h with ⟨h1, _⟩
        subst h1; simp
      · split at h
        · simp only [Option.some.injEq, Prod.mk.injEq] at h
          rcases h with ⟨h1, _⟩
          subst h1; simp
        · simp at h

theorem lazyCapture_subset {closer l : List Char} {inner after : List Char}
    (h : lazyCapture closer l = some (inner, after)) : ∀ x ∈ inner, x ∈ l := by
  induction l generalizing inner after with
  | nil => simp [lazyCapture] at h
  | cons c rest ih =>
    simp only [lazyCapture] at h
    split at h
    · simp at h
    · split at h
      · simp only [Option.some.injEq, Prod.mk.injEq] at h
        rcases h with ⟨h1, _⟩
        subst h1
        intro x hx
        simp at hx
        simp [hx]
      · split at h
        · rename_i inner' after' heq
          simp only [Option.some.injEq, Prod.mk.injEq] at h
          rcases h with ⟨h1, _⟩
          subst h1
          intro x hx
          rcases List.mem_cons.mp hx with rfl | hx'
          · simp
          · exact List.mem_cons_of_mem _ (ih heq x hx')
        · simp at h

theorem boldStar_group1 {s : List Char} {m : ReMatch} (h : boldStar s = some m) :
    m.group1 ≠ [] ∧ ∀ x ∈ m.group1, x ∈ s := by
  unfold boldStar at h
  split at h
  · rename_i rest
    split at h
    · rename_i inner after heq
      injection h with h
      subst h
      refine ⟨lazyCapture_ne_nil heq, fun x hx => ?_⟩
      have := lazyCapture_subset heq x hx
      simp [this]
    · simp at h
  · simp at h

theorem boldUnder_group1 {s : List Char} {m : ReMatch} (h : boldUnder s = some m) :
    m.group1 ≠ [] ∧ ∀ x ∈ m.group1, x ∈ s := by
  unfold boldUnder at h
  split at h
  · rename_i rest
    split at h
    · rename_i inner after heq
      injection h with h
      subst h
      refine ⟨lazyCapture_ne_nil heq, fun x hx => ?_⟩
      have := lazyCapture_subset heq x hx
      simp [this]
    · simp at h
  · simp at h

theorem italicStar_group1 {s : List Char} {m : ReMatch} (h : italicStar s = some m) :
    m.group1 ≠ [] ∧ ∀ x ∈ m.group1, x ∈ s := by
  unfold italicStar at h
  split at h
  · rename_i rest
    split at h
    · rename_i inner after heq
      injection h with h
      subst h
      refine ⟨lazyCapture_ne_nil heq, fun x hx => ?_⟩
      have := lazyCapture_subset heq x hx
      simp [this]
    · simp at h
  · simp at h

theorem italicUnder_group1 {s : List Char} {m : ReMatch} (h : italicUnder s = some m) :
    m.group1 ≠ [] ∧ ∀ x ∈ m.group1, x ∈ s := by
  unfold italicUnder at h
  split at h
  · rename_i rest
    split at h
    · rename_i inner after heq
      injection h with h
      subst h
      refine ⟨lazyCapture_ne_nil heq, fun x hx => ?_⟩
      have := lazyCapture_subset heq x hx
      simp [this]
    · simp at h
  · simp at h

theorem linkRe_group1 {s : List Char} {m : ReMatch} (h : linkRe s = some m) :
    m.group1 ≠ [] ∧ ∀ x ∈ m.group1, x ∈ s := by
  unfold linkRe at h
  split at h
  · rename_i rest
    simp only at h
    split at h
    · simp at h
    · rename_i hne
      split at h
      · rename_i r2
        split at h
        · simp at h
        · split at h
          · injection h with h
            subst h
            refine ⟨by simpa using hne, fun x hx => ?_⟩
            have : x ∈ rest := (List.takeWhile_prefix _).subset hx
            simp [this]
          · simp at h
      · simp at h
  · simp at h

theorem firstMatch_group1 {s : List Char} {m : ReMatch} {ft : FormatType}
    (h : firstMatch patterns s = some (m, ft)) :
    m.group1 ≠ [] ∧ ∀ x ∈ m.group1, x ∈ s := by
  simp only [patterns, firstMatch] at h
  split at h
  · rename_i heq
    injection h with h
    injection h with h1 h2
    subst h1
    subst h2
    exact boldStar_group1 heq
  · split at h
    · rename_i heq
      injection h with h
      injection h with h1 h2
      subst h1
      subst h2
      exact boldUnder_group1 heq
    · split at h
      · rename_i heq
        injection h with h
        injection h with h1 h2
        subst h1
        subst h2
        exact italicStar_group1 heq
      · split at h
        · rename_i heq
          injection h with h
          injection h with h1 h2
          subst h1
          subst h2
          exact italicUnder_group1 heq
        · split at h
          · rename_i heq
            injection h with h
            injection h with h1 h2
            subst h1
            subst h2
            exact linkRe_group1 heq
          · simp at h

/-! ### Properties of the inline scan loop -/

theorem processInlineGo_extends (offset : Nat) :
    ∀ fuel s result reqs, ∃ t u,
      processInlineGo offset fuel s result reqs = (result ++ t, reqs ++ u) := by
  intro fuel
  induction fuel with
  | zero => intro s result reqs; exact ⟨[], [], by simp [processInlineGo]⟩
  | succ fuel ih =>
    intro s result reqs
    cases s with
    | nil => exact ⟨[], [], by simp [processInlineGo]⟩
    | cons c rest =>
      cases hfm : firstMatch patterns (c :: rest) with
      | none =>
        obtain ⟨t, u, heq⟩ := ih rest (result ++ [c]) reqs
        exact ⟨[c] ++ t, u, by simp only [processInlineGo, hfm]; simp [heq]⟩
      | some v =>
        obtain ⟨m, ft⟩ := v
        obtain ⟨t, u, heq⟩ := ih ((c :: rest).drop m.group0len) (result ++ m.group1)
          (reqs ++ [mkInlineReq (offset + result.length) m ft])
        exact ⟨m.group1 ++ t, [mkInlineReq (offset + result.length) m ft] ++ u,
          by simp only [processInlineGo, hfm]; simp [heq]⟩

theorem processInlineGo_mem (offset : Nat) :
    ∀ fuel s result reqs x, x ∈ (processInlineGo offset fuel s result reqs).1 →
      x ∈ result ∨ x ∈ s := by
  intro fuel
  induction fuel with
  | zero =>
    intro s result reqs x hx
    simp [processInlineGo] at hx
    exact Or.inl hx
  | succ fuel ih =>
    intro s result reqs x hx
    cases s with
    | nil =>
      simp [processInlineGo] at hx
      exact Or.inl hx
    | cons c rest =>
      cases hfm : firstMatch patterns (c :: rest) with
      | none =>
        simp only [processInlineGo, hfm] at hx
        rcases ih rest (result ++ [c]) reqs x hx with h | h
        · rcases List.mem_append.mp h with h | h
          · exact Or.inl h
          · simp at h
            exact Or.inr (by simp [h])
        · exact Or.inr (List.mem_cons_of_mem _ h)
      | some v =>
        obtain ⟨m, ft⟩ := v
        simp only [processInlineGo, hfm] at hx
        rcases ih _ _ _ x hx with h | h
        · rcases List.mem_append.mp h with h | h
          · exact Or.inl h
          · exact Or.inr ((firstMatch_group1 hfm).2 x h)
        · exact Or.inr (List.mem_of_mem_drop h)

theorem process_inline_markdown_isEmpty (text : List Char) (base : Nat) :
    (process_inline_markdown text base).1.isEmpty = text.isEmpty := by
  cases text with
  | nil => rfl
  | cons c rest =>
    show (processInlineGo base (rest.length + 1) (c :: rest) [] []).1.isEmpty = false
    cases hfm : firstMatch patterns (c :: rest) with
    | none =>
      obtain ⟨t, u, heq⟩ := processInlineGo_extends base rest.length rest [c] []
      simp [processInlineGo, hfm, heq]
    | some v =>
      obtain ⟨m, ft⟩ := v
      obtain ⟨t, u, heq⟩ :=
        processInlineGo_extends base rest.length ((c :: rest).drop m.group0len) m.group1
          [mkInlineReq base m ft]
      have hg1 : m.group1 ≠ [] := (firstMatch_group1 hfm).1
      simp [processInlineGo, hfm, heq, hg1]

theorem mkInlineReq_startIdx (start : Nat) (m : ReMatch) (ft : FormatType) :
    (mkInlineReq start m ft).startIdx = start := by
  cases ft <;> rfl

theorem mkInlineReq_endIdx (start : Nat) (m : ReMatch) (ft : FormatType) :
    (mkInlineReq start m ft).endIdx = start + m.group1.length := by
  cases ft <;> rfl

theorem processInlineGo_reqs (offset : Nat) :
    ∀ fuel s result reqs,
      (∀ r ∈ reqs, offset ≤ r.startIdx ∧ r.startIdx < r.endIdx ∧
        r.endIdx ≤ offset + result.length) →
      reqs.Pairwise (fun a b => a.endIdx ≤ b.startIdx) →
      (∀ r ∈ (processInlineGo offset fuel s result reqs).2,
        offset ≤ r.startIdx ∧ r.startIdx < r.endIdx ∧
        r.endIdx ≤ offset + (processInlineGo offset fuel s result reqs).1.length) ∧
      ((processInlineGo offset fuel s result reqs).2).Pairwise
        (fun a b => a.endIdx ≤ b.startIdx) := by
  intro fuel
  induction fuel with
  | zero =>
    intro s result reqs hb hp
    simpa [processInlineGo] using ⟨hb, hp⟩
  | succ fuel ih =>
    intro s result reqs hb hp
    cases s with
    | nil => simpa [processInlineGo] using ⟨hb, hp⟩
    | cons c rest =>
      cases hfm : firstMatch patterns (c :: rest) with
      | none =>
        simp only [processInlineGo, hfm]
        refine ih rest (result ++ [c]) reqs ?_ hp
        intro r hr
        obtain ⟨h1, h2, h3⟩ := hb r hr
        refine ⟨h1, h2, ?_⟩
        simp only [List.length_append, List.length_cons, List.length_nil]
        omega
      | some v =>
        obtain ⟨m, ft⟩ := v
        have hg1 : 0 < m.group1.length :=
          List.length_pos.mpr (firstMatch_group1 hfm).1
        simp only [processInlineGo, hfm]
        refine ih _ _ _ ?_ ?_
        · intro r hr
          rcases List.mem_append.mp hr with hr | hr
          · obtain ⟨h1, h2, h3⟩ := hb r hr
            refine ⟨h1, h2, ?_⟩
            simp only [List.length_append]
            omega
          · simp only [List.mem_singleton] at hr
            subst hr
            rw [mkInlineReq_startIdx, mkInlineReq_endIdx]
            refine ⟨Nat.le_add_right _ _, by omega, ?_⟩
            simp only [List.length_append]
            omega
        · rw [List.pairwise_append]
          refine ⟨hp, List.pairwise_singleton _ _, ?_⟩
          intro a ha b hbm
          simp only [List.mem_singleton] at hbm
          subst hbm
          rw [mkInlineReq_startIdx]
          exact (hb a ha).2.2

/-! ### One-step equations for the scanner loop -/

theorem parseLoop_succ_heading {line : List Char} {level : Nat} {content : List Char}
    (h : headingMatch line = some (level, content))
    (fuel : Nat) (rest : List (List Char)) (plain : List Char) (idx : Nat)
    (reqs : List FormatRequest) :
    parseLoop (fuel + 1) (line :: rest) plain idx reqs =
      parseLoop fuel rest (plain ++ (content ++ ['\n']))
        (idx + (content ++ ['\n']).length)
        (reqs ++ [.updateParagraphStyle ⟨idx, idx + (content ++ ['\n']).length⟩ level]) := by
  simp [parseLoop, h]

theorem parseLoop_succ_bullet {line : List Char}
    (hh : headingMatch line = none) (hb : bulletItemMatch line = true)
    (fuel : Nat) (rest : List (List Char)) (plain : List Char) (idx : Nat)
    (reqs : List FormatRequest) :
    parseLoop (fuel + 1) (line :: rest) plain idx reqs =
      parseLoop fuel (collectRun bulletItemMatch stripBullet (line :: rest)).2
        (plain ++ (joinNL (collectRun bulletItemMatch stripBullet (line :: rest)).1 ++ ['\n']))
        (idx + (joinNL (collectRun bulletItemMatch stripBullet (line :: rest)).1 ++ ['\n']).length)
        (reqs ++ [.createParagraphBullets
          ⟨idx, idx + (joinNL (collectRun bulletItemMatch stripBullet (line :: rest)).1 ++
            ['\n']).length⟩ .BULLET_DISC_CIRCLE_SQUARE]) := by
  simp [parseLoop, hh, hb]

theorem parseLoop_succ_numbered {line : List Char}
    (hh : headingMatch line = none) (hb : bulletItemMatch line = false)
    (hn : numberedItemMatch line = true)
    (fuel : Nat) (rest : List (List Char)) (plain : List Char) (idx : Nat)
    (reqs : List FormatRequest) :
    parseLoop (fuel + 1) (line :: rest) plain idx reqs =
      parseLoop fuel (collectRun numberedItemMatch stripNumbered (line :: rest)).2
        (plain ++ (joinNL (collectRun numberedItemMatch stripNumbered (line :: rest)).1 ++ ['\n']))
        (idx + (joinNL (collectRun numberedItemMatch stripNumbered (line :: rest)).1 ++
          ['\n']).length)
        (reqs ++ [.createParagraphBullets
          ⟨idx, idx + (joinNL (collectRun numberedItemMatch stripNumbered (line :: rest)).1 ++
            ['\n']).length⟩ .NUMBERED_DECIMAL_ALPHA_ROMAN]) := by
  simp [parseLoop, hh, hb, hn]

theorem parseLoop_succ_para {line : List Char} {idx : Nat}
    (hh : headingMatch line = none) (hb : bulletItemMatch line = false)
    (hn : numberedItemMatch line = false)
    (hc : (!(process_inline_markdown line idx).1.isEmpty || line.isEmpty) = true)
    (fuel : Nat) (rest : List (List Char)) (plain : List Char)
    (reqs : List FormatRequest) :
    parseLoop (fuel + 1) (line :: rest) plain idx reqs =
      parseLoop fuel rest (plain ++ (process_inline_markdown line idx).1 ++ ['\n'])
        (idx + (process_inline_markdown line idx).1.length + 1)
        (reqs ++ (process_inline_markdown line idx).2) := by
  simp [parseLoop, hh, hb, hn, hc]

theorem parseLoop_succ_skip {line : List Char} {idx : Nat}
    (hh : headingMatch line = none) (hb : bulletItemMatch line = false)
    (hn : numberedItemMatch line = false)
    (hc : (!(process_inline_markdown line idx).1.isEmpty || line.isEmpty) = false)
    (fuel : Nat) (rest : List (List Char)) (plain : List Char)
    (reqs : List FormatRequest) :
    parseLoop (fuel + 1) (line :: rest) plain idx reqs =
      parseLoop fuel rest plain idx reqs := by
  simp [parseLoop, hh, hb, hn, hc]

/-! ### The cursor invariant of the scanner loop -/

theorem parseLoop_cursor :
    ∀ fuel lines plain idx reqs,
      (parseLoop fuel lines plain idx reqs).2.1 + plain.length =
        idx + (parseLoop fuel lines plain idx reqs).1.length := by
  intro fuel
  induction fuel with
  | zero => intro lines plain idx reqs; simp [parseLoop]
  | succ fuel ih =>
    intro lines plain idx reqs
    cases lines with
    | nil => simp [parseLoop]
    | cons line rest =>
      cases hh : headingMatch line with
      | some v =>
        obtain ⟨level, content⟩ := v
        rw [parseLoop_succ_heading hh]
        have H := ih rest (plain ++ (content ++ ['\n'])) (idx + (content ++ ['\n']).length)
          (reqs ++ [.updateParagraphStyle ⟨idx, idx + (content ++ ['\n']).length⟩ level])
        simp only [List.length_append, List.length_cons, List.length_nil] at H ⊢
        omega
      | none =>
        cases hb : bulletItemMatch line with
        | true =>
          rw [parseLoop_succ_bullet hh hb]
          have H := ih (collectRun bulletItemMatch stripBullet (line :: rest)).2
            (plain ++ (joinNL (collectRun bulletItemMatch stripBullet (line :: rest)).1 ++ ['\n']))
            (idx + (joinNL (collectRun bulletItemMatch stripBullet (line :: rest)).1 ++
              ['\n']).length)
            (reqs ++ [.createParagraphBullets
              ⟨idx, idx + (joinNL (collectRun bulletItemMatch stripBullet (line :: rest)).1 ++
                ['\n']).length⟩ .BULLET_DISC_CIRCLE_SQUARE])
          simp only [List.length_append, List.length_cons, List.length_nil] at H ⊢
          omega
        | false =>
          cases hn : numberedItemMatch line with
          | true =>
            rw [parseLoop_succ_numbered hh hb hn]
            have H := ih (collectRun numberedItemMatch stripNumbered (line :: rest)).2
              (plain ++ (joinNL (collectRun numberedItemMatch stripNumbered (line :: rest)).1 ++
                ['\n']))
              (idx + (joinNL (collectRun numberedItemMatch stripNumbered (line :: rest)).1 ++
                ['\n']).length)
              (reqs ++ [.createParagraphBullets
                ⟨idx, idx + (joinNL (collectRun numberedItemMatch stripNumbered
                  (line :: rest)).1 ++ ['\n']).length⟩ .NUMBERED_DECIMAL_ALPHA_ROMAN])
            simp only [List.length_append, List.length_cons, List.length_nil] at H ⊢
            omega
          | false =>
            cases hc : (!(process_inline_markdown line idx).1.isEmpty || line.isEmpty) with
            | true =>
              rw [parseLoop_succ_para hh hb hn hc]
              have H := ih rest (plain ++ (process_inline_markdown line idx).1 ++ ['\n'])
                (idx + (process_inline_markdown line idx).1.length + 1)
                (reqs ++ (process_inline_markdown line idx).2)
              simp only [List.length_append, List.length_cons, List.length_nil] at H ⊢
              omega
            | false =>
              rw [parseLoop_succ_skip hh hb hn hc]
              exact ih rest plain idx reqs

/-! ### Run collection and line classification -/

theorem collectRun_eq (p : List Char → Bool) (strip : List Char → List Char) :
    ∀ ls, collectRun p strip ls = ((ls.takeWhile p).map strip, ls.dropWhile p) := by
  intro ls
  induction ls with
  | nil => rfl
  | cons l ls ih =>
    cases h : p l with
    | true => simp [collectRun, ih, List.takeWhile_cons, List.dropWhile_cons, h]
    | false => simp [collectRun, List.takeWhile_cons, List.dropWhile_cons, h]

theorem headingMatch_subset {line : List Char} {level : Nat} {content : List Char}
    (h : headingMatch line = some (level, content)) : ∀ x ∈ content, x ∈ line := by
  simp only [headingMatch] at h
  split at h
  · split at h
    · injection h with h
      injection h with h1 h2
      subst h2
      intro x hx
      exact List.mem_of_mem_drop (List.mem_of_mem_drop hx)
    · split at h
      · injection h with h
        injection h with h1 h2
        subst h2
        intro x hx
        exact List.mem_of_mem_drop (List.mem_of_mem_drop hx)
      · simp at h
  · simp at h

theorem stripBullet_subset (line : List Char) : ∀ x ∈ stripBullet line, x ∈ line := by
  intro x hx
  exact List.mem_of_mem_drop ((List.dropWhile_suffix _).subset hx)

theorem stripNumbered_subset (line : List Char) : ∀ x ∈ stripNumbered line, x ∈ line := by
  intro x hx
  exact (List.dropWhile_suffix _).subset
    (List.mem_of_mem_drop ((List.dropWhile_suffix _).subset hx))

theorem pyIsDigit_beq_false {c x : Char} (hc : pyIsDigit c = true)
    (hx : pyIsDigit x = false) : (c == x) = false := by
  cases h : c == x with
  | false => rfl
  | true =>
    have he : c = x := by simpa using h
    rw [he] at hc
    rw [hc] at hx
    simp at hx

theorem numberedItemMatch_head {line : List Char} (h : numberedItemMatch line = true) :
    ∃ c rest, line = c :: rest ∧ pyIsDigit c = true := by
  cases line with
  | nil => simp [numberedItemMatch] at h
  | cons c rest =>
    refine ⟨c, rest, rfl, ?_⟩
    cases hc : pyIsDigit c with
    | true => rfl
    | false =>
      exfalso
      simp only [numberedItemMatch, List.takeWhile_cons, hc] at h
      split at h
      · simp at h
      · simp at h

theorem numberedItemMatch_not_heading {line : List Char}
    (h : numberedItemMatch line = true) : headingMatch line = none := by
  obtain ⟨c, rest, rfl, hc⟩ := numberedItemMatch_head h
  have hhash : (c == '#') = false := pyIsDigit_beq_false hc (by decide)
  simp [headingMatch, List.takeWhile_cons, hhash]

theorem numberedItemMatch_not_bullet {line : List Char}
    (h : numberedItemMatch line = true) : bulletItemMatch line = false := by
  obtain ⟨c, rest, rfl, hc⟩ := numberedItemMatch_head h
  cases rest with
  | nil => rfl
  | cons d t =>
    have h1 : (c == '-') = false := pyIsDigit_beq_false hc (by decide)
    have h2 : (c == '*') = false := pyIsDigit_beq_false hc (by decide)
    simp [bulletItemMatch, h1, h2]

/-! ### Newline counting -/

theorem joinNL_count {ls : List (List Char)} (h : ∀ l ∈ ls, '\n' ∉ l) :
    (joinNL ls).count '\n' = ls.length - 1 := by
  induction ls with
  | nil => rfl
  | cons l ls ih =>
    cases ls with
    | nil =>
      have hl : l.count '\n' = 0 := List.count_eq_zero.mpr (h l (by simp))
      simpa [joinNL] using hl
    | cons l2 t =>
      have hl : l.count '\n' = 0 := List.count_eq_zero.mpr (h l (by simp))
      have ih2 := ih (fun x hx => h x (List.mem_cons_of_mem _ hx))
      have hJ : joinNL (l :: l2 :: t) = l ++ '\n' :: joinNL (l2 :: t) := rfl
      rw [hJ, List.count_append, List.count_cons, hl, ih2]
      simp

theorem splitNL_ne_nil (md : List Char) : splitNL md ≠ [] := by
  cases md with
  | nil => simp [splitNL]
  | cons c rest =>
    cases h : c == '\n' with
    | true => simp [splitNL, h]
    | false =>
      simp only [splitNL, h, Bool.false_eq_true, if_false]
      cases hs : splitNL rest with
      | nil => simp
      | cons l ls => simp

theorem splitNL_no_newline (md : List Char) : ∀ l ∈ splitNL md, '\n' ∉ l := by
  induction md with
  | nil =>
    intro l hl
    simp [splitNL] at hl
    subst hl
    simp
  | cons c rest ih =>
    intro l hl
    cases h : c == '\n' with
    | true =>
      simp only [splitNL, h, if_true] at hl
      rcases List.mem_cons.mp hl with rfl | hmem
      · simp
      · exact ih l hmem
    | false =>
      have hc : c ≠ '\n' := by simpa using h
      simp only [splitNL, h, Bool.false_eq_true, if_false] at hl
      cases hs : splitNL rest with
      | nil => exact absurd hs (splitNL_ne_nil rest)
      | cons l0 ls =>
        rw [hs] at hl
        simp only at hl
        rcases List.mem_cons.mp hl with rfl | hmem
        · intro hnl
          rcases List.mem_cons.mp hnl with heq | hin
          · exact hc heq.symm
          · exact ih l0 (by rw [hs]; simp) hin
        · exact ih l (by rw [hs]; simp [hmem])

/-! ### Range containment invariant of the scanner loop -/

theorem parseLoop_bounds :
    ∀ fuel lines plain idx reqs,
      idx = plain.length + 1 →
      (∀ r ∈ reqs, 1 ≤ r.startIdx ∧ r.startIdx ≤ r.endIdx ∧ r.endIdx ≤ plain.length + 1) →
      ∀ r ∈ (parseLoop fuel lines plain idx reqs).2.2,
        1 ≤ r.startIdx ∧ r.startIdx ≤ r.endIdx ∧
        r.endIdx ≤ (parseLoop fuel lines plain idx reqs).1.length + 1 := by
  intro fuel
  induction fuel with
  | zero => intro lines plain idx reqs hidx hbd; simpa [parseLoop] using hbd
  | succ fuel ih =>
    intro lines plain idx reqs hidx hbd
    cases lines with
    | nil => simpa [parseLoop] using hbd
    | cons line rest =>
      cases hh : headingMatch line with
      | some v =>
        obtain ⟨level, content⟩ := v
        rw [parseLoop_succ_heading hh]
        refine ih _ _ _ _ ?_ ?_
        · simp only [List.length_append, List.length_cons, List.length_nil]
          omega
        · intro r hr
          rcases List.mem_append.mp hr with hr | hr
          · obtain ⟨h1, h2, h3⟩ := hbd r hr
            refine ⟨h1, h2, ?_⟩
            simp only [List.length_append, List.length_cons, List.length_nil]
            omega
          · simp only [List.mem_singleton] at hr
            subst hr
            simp only [FormatRequest.startIdx, FormatRequest.endIdx,
              List.length_append, List.length_cons, List.length_nil]
            omega
      | none =>
        cases hb : bulletItemMatch line with
        | true =>
          rw [parseLoop_succ_bullet hh hb]
          refine ih _ _ _ _ ?_ ?_
          · simp only [List.length_append, List.length_cons, List.length_nil]
            omega
          · intro r hr
            rcases List.mem_append.mp hr with hr | hr
            · obtain ⟨h1, h2, h3⟩ := hbd r hr
              refine ⟨h1, h2, ?_⟩
              simp only [List.length_append, List.length_cons, List.length_nil]
              omega
            · simp only [List.mem_singleton] at hr
              subst hr
              simp only [FormatRequest.startIdx, FormatRequest.endIdx,
                List.length_append, List.length_cons, List.length_nil]
              omega
        | false =>
          cases hn : numberedItemMatch line with
          | true =>
            rw [parseLoop_succ_numbered hh hb hn]
            refine ih _ _ _ _ ?_ ?_
            · simp only [List.length_append, List.length_cons, List.length_nil]
              omega
            · intro r hr
              rcases List.mem_append.mp hr with hr | hr
              · obtain ⟨h1, h2, h3⟩ := hbd r hr
                refine ⟨h1, h2, ?_⟩
                simp only [List.length_append, List.length_cons, List.length_nil]
                omega
              · simp only [List.mem_singleton] at hr
                subst hr
                simp only [FormatRequest.startIdx, FormatRequest.endIdx,
                  List.length_append, List.length_cons, List.length_nil]
                omega
          | false =>
            cases hc : (!(process_inline_markdown line idx).1.isEmpty || line.isEmpty) with
            | true =>
              rw [parseLoop_succ_para hh hb hn hc]
              refine ih _ _ _ _ ?_ ?_
              · simp only [List.length_append, List.length_cons, List.length_nil]
                omega
              · intro r hr
                rcases List.mem_append.mp hr with hr | hr
                · obtain ⟨h1, h2, h3⟩ := hbd r hr
                  refine ⟨h1, h2, ?_⟩
                  simp only [List.length_append, List.length_cons, List.length_nil]
                  omega
                · have hin := processInlineGo_reqs idx line.length line [] []
                    (by simp) (by simp)
                  obtain ⟨h1, h2, h3⟩ := hin.1 r hr
                  have h4 : r.endIdx ≤ idx + (process_inline_markdown line idx).1.length := h3
                  refine ⟨by omega, Nat.le_of_lt h2, ?_⟩
                  simp only [List.length_append, List.length_cons, List.length_nil]
                  omega
            | false =>
              rw [parseLoop_succ_skip hh hb hn hc]
              exact ih rest plain idx reqs hidx hbd

/-! ### Newline count invariant of the scanner loop -/

theorem parseLoop_count :
    ∀ fuel lines plain idx reqs,
      lines.length ≤ fuel →
      (∀ l ∈ lines, '\n' ∉ l) →
      ((parseLoop fuel lines plain idx reqs).1).count '\n' =
        plain.count '\n' + lines.length := by
  intro fuel
  induction fuel with
  | zero =>
    intro lines plain idx reqs hf hnl
    have hlen : lines = [] := List.length_eq_zero.mp (Nat.le_zero.mp hf)
    subst hlen
    simp [parseLoop]
  | succ fuel ih =>
    intro lines plain idx reqs hf hnl
    cases lines with
    | nil => simp [parseLoop]
    | cons line rest =>
      have hline : '\n' ∉ line := hnl line (by simp)
      cases hh : headingMatch line with
      | some v =>
        obtain ⟨level, content⟩ := v
        rw [parseLoop_succ_heading hh]
        have hcontent : content.count '\n' = 0 :=
          List.count_eq_zero.mpr (fun hx => hline (headingMatch_subset hh _ hx))
        have H := ih rest (plain ++ (content ++ ['\n']))
          (idx + (content ++ ['\n']).length)
          (reqs ++ [.updateParagraphStyle ⟨idx, idx + (content ++ ['\n']).length⟩ level])
          (by simp only [List.length_cons] at hf; omega)
          (fun l hl => hnl l (List.mem_cons_of_mem _ hl))
        rw [H]
        simp [List.count_append, hcontent, List.count_cons]
        omega
      | none =>
        cases hb : bulletItemMatch line with
        | true =>
          rw [parseLoop_succ_bullet hh hb]
          simp only [collectRun_eq]
          have hitems : ∀ l ∈ ((line :: rest).takeWhile bulletItemMatch).map stripBullet,
              '\n' ∉ l := by
            intro l hl
            obtain ⟨l0, hl0, rfl⟩ := List.mem_map.mp hl
            intro hx
            exact hnl l0 ((List.takeWhile_prefix _).subset hl0) (stripBullet_subset l0 '\n' hx)
          have hTlen : 0 < ((line :: rest).takeWhile bulletItemMatch).length := by
            simp [List.takeWhile_cons, hb]
          have hsum : ((line :: rest).takeWhile bulletItemMatch).length +
              ((line :: rest).dropWhile bulletItemMatch).length = rest.length + 1 := by
            rw [← List.length_append, List.takeWhile_append_dropWhile]
            simp
          have hjc : (joinNL (((line :: rest).takeWhile bulletItemMatch).map
              stripBullet)).count '\n' =
              ((line :: rest).takeWhile bulletItemMatch).length - 1 := by
            rw [joinNL_count hitems]
            simp [List.length_map]
          have H := ih ((line :: rest).dropWhile bulletItemMatch)
            (plain ++ (joinNL (((line :: rest).takeWhile bulletItemMatch).map stripBullet) ++
              ['\n']))
            (idx + (joinNL (((line :: rest).takeWhile bulletItemMatch).map stripBullet) ++
              ['\n']).length)
            (reqs ++ [.createParagraphBullets
              ⟨idx, idx + (joinNL (((line :: rest).takeWhile bulletItemMatch).map stripBullet) ++
                ['\n']).length⟩ .BULLET_DISC_CIRCLE_SQUARE])
            (by simp only [List.length_cons] at hf; omega)
            (fun l hl => hnl l ((List.dropWhile_suffix _).subset hl))
          rw [H]
          simp [List.count_append, hjc, List.count_cons, List.length_cons]
          omega
        | false =>
          cases hn : numberedItemMatch line with
          | true =>
            rw [parseLoop_succ_numbered hh hb hn]
            simp only [collectRun_eq]
            have hitems : ∀ l ∈ ((line :: rest).takeWhile numberedItemMatch).map stripNumbered,
                '\n' ∉ l := by
              intro l hl
              obtain ⟨l0, hl0, rfl⟩ := List.mem_map.mp hl
              intro hx
              exact hnl l0 ((List.takeWhile_prefix _).subset hl0)
                (stripNumbered_subset l0 '\n' hx)
            have hTlen : 0 < ((line :: rest).takeWhile numberedItemMatch).length := by
              simp [List.takeWhile_cons, hn]
            have hsum : ((line :: rest).takeWhile numberedItemMatch).length +
                ((line :: rest).dropWhile numberedItemMatch).length = rest.length + 1 := by
              rw [← List.length_append, List.takeWhile_append_dropWhile]
              simp
            have hjc : (joinNL (((line :: rest).takeWhile numberedItemMatch).map
                stripNumbered)).count '\n' =
                ((line :: rest).takeWhile numberedItemMatch).length - 1 := by
              rw [joinNL_count hitems]
              simp [List.length_map]
            have H := ih ((line :: rest).dropWhile numberedItemMatch)
              (plain ++ (joinNL (((line :: rest).takeWhile numberedItemMatch).map
                stripNumbered) ++ ['\n']))
              (idx + (joinNL (((line :: rest).takeWhile numberedItemMatch).map
                stripNumbered) ++ ['\n']).length)
              (reqs ++ [.createParagraphBullets
                ⟨idx, idx + (joinNL (((line :: rest).takeWhile numberedItemMatch).map
                  stripNumbered) ++ ['\n']).length⟩ .NUMBERED_DECIMAL_ALPHA_ROMAN])
              (by simp only [List.length_cons] at hf; omega)
              (fun l hl => hnl l ((List.dropWhile_suffix _).subset hl))
            rw [H]
            simp [List.count_append, hjc, List.count_cons, List.length_cons]
            omega
          | false =>
            cases hc : (!(process_inline_markdown line idx).1.isEmpty || line.isEmpty) with
            | true =>
              rw [parseLoop_succ_para hh hb hn hc]
              have hpl : (process_inline_markdown line idx).1.count '\n' = 0 := by
                refine List.count_eq_zero.mpr (fun hx => ?_)
                rcases processInlineGo_mem idx line.length line [] [] '\n' hx with h | h
                · simp at h
                · exact hline h
              have H := ih rest (plain ++ (process_inline_markdown line idx).1 ++ ['\n'])
                (idx + (process_inline_markdown line idx).1.length + 1)
                (reqs ++ (process_inline_markdown line idx).2)
                (by simp only [List.length_cons] at hf; omega)
                (fun l hl => hnl l (List.mem_cons_of_mem _ hl))
              rw [H]
              simp [List.count_append, hpl, List.count_cons]
              omega
            | false =>
              exfalso
              have hiso := process_inline_markdown_isEmpty line idx
              rw [hiso] at hc
              simp at hc

/-! ### The equivalence of the pattern table with the priority description -/

theorem firstMatch_patterns_eq_spec (s : List Char) :
    firstMatch patterns s = specInlineStep s := by
  simp only [patterns, firstMatch, specInlineStep]

/-! ### Claim theorems -/

/-- C1: Length invariant: for every input, the final plain text and cursor
of `parse_markdown_to_doc_requests` satisfy `len(plainText) = cursor - 1`
(the cursor starts at 1), and across the scanner loop the cursor advances by
exactly the length of the plain text emitted for the processed blocks,
trailing newlines included. -/
theorem C1_length_invariant :
    (∀ markdown : List Char,
      (parseFull markdown).1.length = (parseFull markdown).2.1 - 1) ∧
    (∀ fuel lines plain idx reqs,
      (parseLoop fuel lines plain idx reqs).2.1 + plain.length =
        idx + (parseLoop fuel lines plain idx reqs).1.length) := by
  constructor
  · intro markdown
    unfold parseFull
    have H := parseLoop_cursor (splitNL markdown).length (splitNL markdown) [] 1 []
    simp only [List.length_nil] at H
    omega
  · exact parseLoop_cursor

/-- C2: Range containment: every instruction emitted by the converter
(paragraph style, bullet preset and text style alike) has a range
`[start, end)` with `1 ≤ start ≤ end ≤ len(plainText) + 1`. -/
theorem C2_range_containment (markdown : List Char) :
    ∀ r ∈ (parse_markdown_to_doc_requests markdown).2,
      1 ≤ r.startIdx ∧ r.startIdx ≤ r.endIdx ∧
      r.endIdx ≤ (parse_markdown_to_doc_requests markdown).1.length + 1 := by
  intro r hr
  exact parseLoop_bounds (splitNL markdown).length (splitNL markdown) [] 1 []
    (by simp) (by simp) r hr

/-- Witness for C2: the heading instruction of `"# Title\n"` lies within the
bounds of the emitted plain text. -/
theorem C2_range_containment_witness :
    1 ≤ (FormatRequest.updateParagraphStyle ⟨1, 7⟩ 1).startIdx ∧
    (FormatRequest.updateParagraphStyle ⟨1, 7⟩ 1).startIdx ≤
      (FormatRequest.updateParagraphStyle ⟨1, 7⟩ 1).endIdx ∧
    (FormatRequest.updateParagraphStyle ⟨1, 7⟩ 1).endIdx ≤
      (parse_markdown_to_doc_requests ("# Title\n".toList)).1.length + 1 :=
  C2_range_containment ("# Title\n".toList) _ (by decide)

/-- C3 as stated is false: the empty markdown splits into one empty line,
and that line emits a newline, so the plain text is `"\n"`, not empty. -/
theorem C3_counterexample : (parse_markdown_to_doc_requests []).1 ≠ [] := by
  decide

/-- C3 amended: for the empty input string the converter returns plain text
consisting of a single newline and an empty instruction list. -/
theorem C3_empty_input : parse_markdown_to_doc_requests [] = (['\n'], []) := by
  decide

/-- C4 as stated is false: on `"# Title\n"` the plain text is
`"Title\n\n"` (the split's trailing empty element adds a newline), not
`"Title\n"`. -/
theorem C4_counterexample :
    (parse_markdown_to_doc_requests ("# Title\n".toList)).1 ≠ "Title\n".toList := by
  decide

/-- C4 amended: on `"# Title\n"` the converter returns plain text
`"Title\n\n"` and exactly one instruction, a paragraph style over `[1, 7)`
with named style HEADING_1. -/
theorem C4_heading_roundtrip :
    parse_markdown_to_doc_requests ("# Title\n".toList) =
      ("Title\n\n".toList, [.updateParagraphStyle ⟨1, 7⟩ 1]) := by
  decide

/-- C5 as stated is false: on `"- a\n- b\n- c\n"` the plain text is
`"a\nb\nc\n\n"` (trailing empty split element), not `"a\nb\nc\n"`. -/
theorem C5_counterexample :
    (parse_markdown_to_doc_requests ("- a\n- b\n- c\n".toList)).1 ≠
      "a\nb\nc\n".toList := by
  decide

/-- C5 amended: on `"- a\n- b\n- c\n"` the converter returns plain text
`"a\nb\nc\n\n"` and exactly one bullet-preset instruction spanning `[1, 7)`
with an unordered preset; the three items produce one instruction. -/
theorem C5_bullet_run_merge :
    parse_markdown_to_doc_requests ("- a\n- b\n- c\n".toList) =
      ("a\nb\nc\n\n".toList,
        [.createParagraphBullets ⟨1, 7⟩ .BULLET_DISC_CIRCLE_SQUARE]) ∧
    BulletPreset.ordered .BULLET_DISC_CIRCLE_SQUARE = false := by
  exact ⟨by decide, rfl⟩

/-- C6: the inline formatter scan: one step of the loop consumes, in the
fixed priority order bold (`**` then `__`), italic (`*` then `_`), link, the
first pattern matching at the current position, appends its inner text,
emits one text-style request over the inner text's range and resumes after
the whole match; with no match it copies one character verbatim and advances
by one. -/
theorem C6_inline_priority :
    ∀ (offset fuel : Nat) (s result : List Char) (reqs : List FormatRequest),
      processInlineGo offset (fuel + 1) s result reqs =
        match s with
        | [] => (result, reqs)
        | c :: rest =>
          match specInlineStep (c :: rest) with
          | some (m, ft) =>
            processInlineGo offset fuel ((c :: rest).drop m.group0len)
              (result ++ m.group1)
              (reqs ++ [mkInlineReq (offset + result.length) m ft])
          | none => processInlineGo offset fuel rest (result ++ [c]) reqs := by
  intro offset fuel s result reqs
  cases s with
  | nil => rfl
  | cons c rest =>
    show processInlineGo offset (fuel + 1) (c :: rest) result reqs =
      match specInlineStep (c :: rest) with
      | some (m, ft) =>
        processInlineGo offset fuel (List.drop m.group0len (c :: rest))
          (result ++ m.group1)
          (reqs ++ [mkInlineReq (offset + result.length) m ft])
      | none => processInlineGo offset fuel rest (result ++ [c]) reqs
    rw [show specInlineStep (c :: rest) = firstMatch patterns (c :: rest) from
      (firstMatch_patterns_eq_spec _).symm]
    rfl

/-- C7 as stated is false: on `"a *b\n"` the plain text is `"a *b\n\n"`
(trailing empty split element), not `"a *b\n"`. -/
theorem C7_counterexample :
    (parse_markdown_to_doc_requests ("a *b\n".toList)).1 ≠ "a *b\n".toList := by
  decide

/-- C7 amended: the unterminated `*` never matches any inline pattern and is
copied verbatim: on `"a *b\n"` the converter returns plain text
`"a *b\n\n"` and zero instructions. -/
theorem C7_unmatched_delimiter :
    parse_markdown_to_doc_requests ("a *b\n".toList) = ("a *b\n\n".toList, []) := by
  decide

/-- C8 as stated is false: the code's patterns require no content after the
marker's whitespace: `"- "` is a list item for the code (and the converter
emits a bullet preset for it) although the claimed pattern `^[-*]\s+.+`
rejects it. -/
theorem C8_counterexample :
    bulletItemMatch ['-', ' '] = true ∧ claimedBulletItem ['-', ' '] = false ∧
    parse_markdown_to_doc_requests ("- \n".toList) =
      ("\n\n".toList, [.createParagraphBullets ⟨1, 2⟩ .BULLET_DISC_CIRCLE_SQUARE]) := by
  refine ⟨by decide, by decide, by decide⟩

/-- C8 amended: a line starts or continues a bullet (resp. numbered) run
exactly when it matches `^[-*]\s+` (resp. `^\d+\.\s+`) - content after the
whitespace is not required, so a marker followed by whitespace alone is a
list item; runs are maximal (the first non-matching line ends them), and a
numbered run emits exactly one bullet-preset instruction with an ordered
preset covering the whole run. -/
theorem C8_list_classification :
    (∀ ls, collectRun bulletItemMatch stripBullet ls =
      ((ls.takeWhile bulletItemMatch).map stripBullet, ls.dropWhile bulletItemMatch)) ∧
    (∀ ls, collectRun numberedItemMatch stripNumbered ls =
      ((ls.takeWhile numberedItemMatch).map stripNumbered,
        ls.dropWhile numberedItemMatch)) ∧
    (∀ (fuel : Nat) (line : List Char) (rest : List (List Char)) (plain : List Char)
        (idx : Nat) (reqs : List FormatRequest),
      numberedItemMatch line = true →
      parseLoop (fuel + 1) (line :: rest) plain idx reqs =
        parseLoop fuel ((line :: rest).dropWhile numberedItemMatch)
          (plain ++ (joinNL (((line :: rest).takeWhile numberedItemMatch).map
            stripNumbered) ++ ['\n']))
          (idx + (joinNL (((line :: rest).takeWhile numberedItemMatch).map
            stripNumbered) ++ ['\n']).length)
          (reqs ++ [.createParagraphBullets
            ⟨idx, idx + (joinNL (((line :: rest).takeWhile numberedItemMatch).map
              stripNumbered) ++ ['\n']).length⟩ .NUMBERED_DECIMAL_ALPHA_ROMAN])) ∧
    BulletPreset.ordered .NUMBERED_DECIMAL_ALPHA_ROMAN = true ∧
    bulletItemMatch ['-', ' '] = true ∧ numberedItemMatch ("1. ".toList) = true := by
  refine ⟨collectRun_eq _ _, collectRun_eq _ _, ?_, rfl, by decide, by decide⟩
  intro fuel line rest plain idx reqs hn
  rw [parseLoop_succ_numbered (numberedItemMatch_not_heading hn)
    (numberedItemMatch_not_bullet hn) hn]
  simp only [collectRun_eq]

/-- Witness for C8: one numbered line `"1. a"` is consumed as a maximal run
of one item and yields a single ordered bullet-preset instruction. -/
theorem C8_list_classification_witness :
    parseLoop 1 ["1. a".toList] [] 1 [] =
      ("a\n".toList, 3, [.createParagraphBullets ⟨1, 3⟩ .NUMBERED_DECIMAL_ALPHA_ROMAN]) :=
  (C8_list_classification.2.2.1 0 ("1. a".toList) [] [] 1 [] (by decide)).trans (by decide)

/-- C9: the emitted plain text contains exactly one newline per element of
the input split on newlines (no line is dropped), and the inline formatter
returns an empty text exactly when its input line is empty. -/
theorem C9_newline_count :
    (∀ markdown : List Char,
      (parse_markdown_to_doc_requests markdown).1.count '\n' =
        (splitNL markdown).length) ∧
    (∀ (line : List Char) (base : Nat),
      (process_inline_markdown line base).1.isEmpty = line.isEmpty) := by
  constructor
  · intro markdown
    have H : (parse_markdown_to_doc_requests markdown).1.count '\n' =
        List.count '\n' [] + (splitNL markdown).length :=
      parseLoop_count (splitNL markdown).length (splitNL markdown) [] 1 []
        (Nat.le_refl _) (splitNL_no_newline markdown)
    simpa using H
  · exact process_inline_markdown_isEmpty

/-- C10: the text-style requests emitted by one inline formatter call have
non-empty ranges, are pairwise disjoint, and appear in strictly increasing
positional order. -/
theorem C10_textstyle_ranges (line : List Char) (base : Nat) :
    ((process_inline_markdown line base).2).Pairwise
      (fun a b => a.endIdx ≤ b.startIdx ∧ a.startIdx < b.startIdx) ∧
    ∀ r ∈ (process_inline_markdown line base).2, r.startIdx < r.endIdx := by
  have H := processInlineGo_reqs base line.length line [] [] (by simp) (by simp)
  have hmem : ∀ r ∈ (process_inline_markdown line base).2,
      base ≤ r.startIdx ∧ r.startIdx < r.endIdx ∧
      r.endIdx ≤ base + (process_inline_markdown line base).1.length := H.1
  have hpw : ((process_inline_markdown line base).2).Pairwise
      (fun a b => a.endIdx ≤ b.startIdx) := H.2
  refine ⟨?_, fun r hr => (hmem r hr).2.1⟩
  refine List.Pairwise.imp_of_mem ?_ hpw
  intro a b ha hb hab
  exact ⟨hab, lt_of_lt_of_le (hmem a ha).2.1 hab⟩

/-- Witness for C10: the two requests of `"**a** *b*"` are disjoint and in
increasing order, and the first has a non-empty range. -/
theorem C10_textstyle_ranges_witness :
    ((process_inline_markdown ("**a** *b*".toList) 1).2).Pairwise
      (fun a b => a.endIdx ≤ b.startIdx ∧ a.startIdx < b.startIdx) ∧
    (FormatRequest.updateTextStyle ⟨1, 2⟩ .bold).startIdx <
      (FormatRequest.updateTextStyle ⟨1, 2⟩ .bold).endIdx :=
  ⟨(C10_textstyle_ranges ("**a** *b*".toList) 1).1,
    (C10_textstyle_ranges ("**a** *b*".toList) 1).2 _ (by decide)⟩
